import Mathlib

/-!
Verification of the XNNPACK transpose operator core
(src/operators/transpose-nd.c) against its natural-language specification.

The C code is shallowly embedded: C size_t arrays become List ℕ (read through
a total getter with default 0, mirroring in-bounds C reads), enums become
inductive types, and the stateful setup routine becomes a pure function from
its arguments to a record of the observable effects (returned status, the
operator state field, whether the error path deallocated the operator, and the
stored execution plan).  Hardware-dependent tile sizes from the global
xnn_params live in an explicit XnnParams record.  The normalization routine
xnn_normalize_transpose_permutation is declared in xnnpack/normalization.h but
its implementation is not part of this tree, so it is modelled from the spec
(section 4.1); everything else is translated from transpose-nd.c.
-/

namespace XnnTranspose

/-- Total array read: C code only reads in-bounds entries, so the default
value 0 is never semantically relevant for well-formed calls. -/
def nth (l : List ℕ) (i : ℕ) : ℕ := l.getD i 0

/-- Subset of enum xnn_status used by this translation unit. -/
inductive XnnStatus
  | success
  | invalidParameter
  | unsupportedHardware
  | outOfMemory
  | notInitialized

/-- enum xnn_run_state (operator lifecycle state). -/
inductive RunState
  | notInitialized
  | invalid
  | ready
  | skip

/-- XNN_MAX_TENSOR_DIMS. -/
def XNN_MAX_TENSOR_DIMS : ℕ := 6

/-- Hardware-dependent tile sizes taken from the global xnn_params
(xnn_params.x8/x16/x32/xx.transpose.tile_size); kept abstract as an explicit
parameter record. -/
structure XnnParams where
  x8Tile : ℕ
  x16Tile : ℕ
  x32Tile : ℕ
  xxTile : ℕ

/-- An arbitrary concrete instantiation of the hardware parameters, used to
evaluate the embedding on concrete inputs. -/
def P0 : XnnParams := ⟨8, 8, 8, 4⟩

/-- Kernel family chosen by the element-size switch
(xnn_params.x8 / .x16 / .x32 / .xx). -/
inductive KernelFamily
  | x8
  | x16
  | x32
  | xx

/-- enum xnn_parallelization_type values used by setup_transpose_nd. -/
inductive ParallelizationType
  | t1dTile1d
  | t2dTile2d
  | t3dTile2d
  | t4dTile2d
  | t5dTile2d
  | t6dTile2d

/-- Dimensionality of a parallelization strategy (the d in xnn_parallelization_type_«d»d...). -/
def ptypeDims : ParallelizationType → ℕ
  | .t1dTile1d => 1
  | .t2dTile2d => 2
  | .t3dTile2d => 3
  | .t4dTile2d => 4
  | .t5dTile2d => 5
  | .t6dTile2d => 6

/-- Which task function pointer setup_transpose_nd installs:
xnn_compute_univector_contiguous, or xnn_compute_transposec_«r»d /
xnn_compute_transposev_«r»d. -/
inductive TaskKind
  | univectorContiguous
  | transposec (r : ℕ)
  | transposev (r : ℕ)

/-- Which context the input/output pointers are stored into at the end of
setup_transpose_nd (transpose_op->context.univector_contiguous vs
transpose_op->context.transpose). -/
inductive PointerSlot
  | univectorContiguousCtx
  | transposeCtx

/-- Result of the element-size switch in setup_transpose_nd (lines 231-257):
log2_element_size and const_size_ukernel for sizes 1/2/4, or element_size and
variable_size_ukernel otherwise; tile sizes come from the chosen family. -/
structure ElementDispatch where
  family : KernelFamily
  log2ElementSize : Option ℕ
  runtimeElementSize : Option ℕ
  variableSizeUkernel : Bool
  tile0 : ℕ
  tile1 : ℕ

/-- The element-size switch of setup_transpose_nd (lines 231-257). -/
def elementDispatch (P : XnnParams) (nes : ℕ) : ElementDispatch :=
  match nes with
  | 1 => ⟨.x8, some 0, none, false, P.x8Tile, P.x8Tile⟩
  | 2 => ⟨.x16, some 1, none, false, P.x16Tile, P.x16Tile⟩
  | 4 => ⟨.x32, some 2, none, false, P.x32Tile, P.x32Tile⟩
  | n => ⟨.xx, none, some n, true, P.xxTile, P.xxTile⟩

/-- The normalized-rank switch of setup_transpose_nd (lines 259-311), choosing
the parallelization type and the installed task function.  Ranks outside 1..6
are XNN_UNREACHABLE after validation; the catch-all arm is arbitrary. -/
def rankDispatch (variableSize : Bool) (ndims : ℕ) : ParallelizationType × TaskKind :=
  match ndims with
  | 1 => (.t1dTile1d, .univectorContiguous)
  | 2 => (.t2dTile2d, if variableSize then .transposev 2 else .transposec 2)
  | 3 => (.t3dTile2d, if variableSize then .transposev 3 else .transposec 3)
  | 4 => (.t4dTile2d, if variableSize then .transposev 4 else .transposec 4)
  | 5 => (.t5dTile2d, if variableSize then .transposev 5 else .transposec 5)
  | 6 => (.t6dTile2d, if variableSize then .transposev 6 else .transposec 6)
  | _ => (.t1dTile1d, .univectorContiguous)

/-- reorder_array (lines 23-33): array[i] = tmp[loop_order[i]] for the first
num_dims entries (entries beyond num_dims are never consumed and are dropped
here). -/
def reorder_array (numDims : ℕ) (loopOrder arr : List ℕ) : List ℕ :=
  (List.range numDims).map (fun i => nth arr (nth loopOrder i))

/-- Exchange of the entries at positions a and b, as performed by the
three-assignment swaps on loop_order and context->output_stride
(lines 214-219). -/
def listSwap (l : List ℕ) (a b : ℕ) : List ℕ := (l.set a (nth l b)).set b (nth l a)

/-- The swap of positions a and b as a function on indices. -/
def swapFun (a b : ℕ) (k : ℕ) : ℕ := if k = a then b else if k = b then a else k

/-- The C scan `for (i = 0; i < bound; ++i) if (p i) break;` returning the
first index satisfying p, if any: firstHit p m s scans s, s+1, ..., s+m-1. -/
def firstHit (p : ℕ → Bool) : ℕ → ℕ → Option ℕ
  | 0, _ => none
  | m + 1, s => if p s then some s else firstHit p m (s + 1)

/-- The loop-order adjustment of setup_transpose_nd (lines 206-223): when
normalized_dims > 1, scan positions 0 .. normalized_dims-3 of loop_order
(which was memcpy'd from normalized_perm) for the entry equal to
normalized_dims-1 and swap it (and the matching output_stride entry) into
position normalized_dims-2, stopping at the first hit. -/
def applyLoopSwap (ndims : ℕ) (lo ostr : List ℕ) : List ℕ × List ℕ :=
  if 1 < ndims then
    match firstHit (fun i => nth lo i == ndims - 1) (ndims - 2) 0 with
    | some i => (listSwap lo i (ndims - 2), listSwap ostr i (ndims - 2))
    | none => (lo, ostr)
  else (lo, ostr)

/-- Product of the extents strictly after position i (the running value of
current_stride in the stride-validation loops of lines 157-165/174-182). -/
def tailProd (n : ℕ) (shape : List ℕ) (i : ℕ) : ℕ :=
  (((List.range n).drop i).map (nth shape)).prod

/-- The condition logged by the input_stride validation block (lines 151-166):
last stride not 1, or some stride below the packed requirement
input_stride[i-1] >= input_stride[i] * input_shape[i], or below the running
product of inner extents.  In the C code a violation is only logged; no goto
error is executed. -/
def inputStrideViolation (n : ℕ) (shape istr : List ℕ) : Bool :=
  (nth istr (n - 1) != 1) ||
    (List.range n).any (fun i =>
      decide (1 ≤ i) &&
        (decide (nth istr (i - 1) < nth istr i * nth shape i) ||
         decide (nth istr (i - 1) < tailProd n shape (i + 1))))

/-- The condition logged by the output_stride validation block (lines 168-183);
again the C code only logs it. -/
def outputStrideViolation (n : ℕ) (shape perm ostr : List ℕ) : Bool :=
  (nth ostr (n - 1) != 1) ||
    (List.range n).any (fun i =>
      decide (1 ≤ i) &&
        (decide (nth ostr (i - 1) < nth ostr i * nth shape (nth perm i)) ||
         decide (nth ostr (i - 1) <
           tailProd n ((List.range n).map (fun k => nth shape (nth perm k))) (i + 1))))

/-- Row-major packed strides synthesized from a shape (stride of each
dimension is the product of all later extents, innermost stride 1). -/
def packedStrides : List ℕ → List ℕ
  | [] => []
  | _ :: t => (t.map id).prod :: packedStrides t

/-- The (rank, element size, perm, shape, input strides, output strides)
tuple flowing through xnn_normalize_transpose_permutation. -/
structure NormalizedProblem where
  dims : ℕ
  elementSize : ℕ
  perm : List ℕ
  shape : List ℕ
  inputStride : List ℕ
  outputStride : List ℕ

/-- Output position of input dimension i, i.e. the k with perm[k] = i. -/
def outPos (p : NormalizedProblem) (i : ℕ) : Option ℕ :=
  (List.range p.dims).find? (fun k => nth p.perm k == i)

/-- Modelled from the spec: whether adjacent input dimensions i, i+1 may merge
(section 4.1): the permutation keeps them adjacent in the same order, and both
input and output strides are exactly packed across the pair. -/
def mergeable (p : NormalizedProblem) (i : ℕ) : Bool :=
  match outPos p i with
  | none => false
  | some k =>
    decide (k + 1 < p.dims) && (nth p.perm (k + 1) == i + 1) &&
      (nth p.inputStride i == nth p.shape (i + 1) * nth p.inputStride (i + 1)) &&
      (nth p.outputStride k == nth p.shape (i + 1) * nth p.outputStride (k + 1))

/-- Modelled from the spec: merge input dimensions i and i+1 (section 4.1):
shapes multiply, the lower (inner) strides are kept, the permutation entry for
i+1 disappears and larger values shift down. -/
def doMerge (p : NormalizedProblem) (i k : ℕ) : NormalizedProblem where
  dims := p.dims - 1
  elementSize := p.elementSize
  perm := (p.perm.eraseIdx (k + 1)).map (fun v => if i < v then v - 1 else v)
  shape := (p.shape.set i (nth p.shape i * nth p.shape (i + 1))).eraseIdx (i + 1)
  inputStride := p.inputStride.eraseIdx i
  outputStride := p.outputStride.eraseIdx k

/-- Modelled from the spec: find the innermost mergeable adjacent pair
(section 4.1 scans from the innermost dimension outward). -/
def findMergePair (p : NormalizedProblem) : Option (ℕ × ℕ) :=
  match (List.range (p.dims - 1)).reverse.find? (fun i => mergeable p i) with
  | none => none
  | some i =>
    match outPos p i with
    | some k => some (i, k)
    | none => none

/-- Modelled from the spec: repeatedly merge mergeable adjacent pairs until
none remains (fuel bounds the number of merges; each merge lowers the rank). -/
def mergeLoop : ℕ → NormalizedProblem → NormalizedProblem
  | 0, p => p
  | fuel + 1, p =>
    match findMergePair p with
    | none => p
    | some (i, k) => mergeLoop fuel (doMerge p i k)

/-- Modelled from the spec: the element-width promotion for the fully merged
contiguous identity case (section 4.1 guarantee: a same-order contiguous copy
collapses to rank 1 on a single combined element of the total byte size). -/
def finalPromotion (p : NormalizedProblem) : NormalizedProblem :=
  if p.dims = 1 && nth p.perm 0 == 0 && nth p.inputStride 0 == 1 &&
      nth p.outputStride 0 == 1 then
    ⟨1, p.elementSize * nth p.shape 0, [0], [1], [1], [1]⟩
  else p

/-- Modelled from the spec: xnn_normalize_transpose_permutation (declared in
xnnpack/normalization.h; its implementation is not in this tree).  Per section
4.1: omitted input strides are synthesized as row-major packed strides from
the shape, omitted output strides from the permuted shape; then adjacent
dimensions merge while the permutation keeps them adjacent and both stride
arrays are exactly packed across the pair, and the fully contiguous identity
case is promoted to a rank-1 single combined element. -/
def xnn_normalize_transpose_permutation (numDims elementSize : ℕ)
    (perm shape : List ℕ) (inputStride outputStride : Option (List ℕ)) :
    NormalizedProblem :=
  let shapeN := (List.range numDims).map (nth shape)
  let permN := (List.range numDims).map (nth perm)
  let oshape := (List.range numDims).map (fun i => nth shape (nth perm i))
  let istr := match inputStride with
    | some s => (List.range numDims).map (nth s)
    | none => packedStrides shapeN
  let ostr := match outputStride with
    | some s => (List.range numDims).map (nth s)
    | none => packedStrides oshape
  finalPromotion (mergeLoop numDims ⟨numDims, elementSize, permN, shapeN, istr, ostr⟩)

/-- The execution plan stored in the operator by a successful
setup_transpose_nd: the context stride arrays, compute range/tiles, chosen
kernels and the context the input/output pointers were stored into. -/
structure TransposePlan where
  normalizedDims : ℕ
  normalizedElementSize : ℕ
  loopOrder : List ℕ
  range : List ℕ
  inputStride : List ℕ
  outputStride : List ℕ
  elementKernel : ElementDispatch
  parallelization : ParallelizationType
  task : TaskKind
  pointerSlot : PointerSlot

/-- Observable outcome of a setup call: returned status, the operator's state
field, whether the error path called xnn_delete_operator on the operator, and
the stored plan (none when no plan was built). -/
structure SetupResult where
  status : XnnStatus
  state : RunState
  deallocated : Bool
  plan : Option TransposePlan

/-- The success path of setup_transpose_nd (lines 196-319): normalization,
loop-order adjustment, gathers, the two dispatch switches, and the pointer
slot chosen from transpose_op->channels = num_dims (line 196, tested at line
313). -/
def buildPlan (P : XnnParams) (numDims : ℕ) (inputShape perm : List ℕ)
    (inputStride outputStride : Option (List ℕ)) (elementSize : ℕ) : TransposePlan :=
  let np := xnn_normalize_transpose_permutation numDims elementSize perm inputShape
    inputStride outputStride
  let lo0 := (List.range np.dims).map (nth np.perm)
  let swapped := applyLoopSwap np.dims lo0 np.outputStride
  let range0 := (List.range np.dims).map (nth np.shape)
  let istr := reorder_array np.dims swapped.1 np.inputStride
  let rng0 := reorder_array np.dims swapped.1 range0
  let ed := elementDispatch P np.elementSize
  let rd := rankDispatch ed.variableSizeUkernel np.dims
  let rng := if np.dims = 1 then rng0.set 0 np.elementSize else rng0
  ⟨np.dims, np.elementSize, swapped.1, rng, istr, swapped.2, ed, rd.1, rd.2,
    if numDims = 1 then .univectorContiguousCtx else .transposeCtx⟩

/-- setup_transpose_nd (lines 103-327).  The function first sets
transpose_op->state = xnn_run_state_invalid, then validates rank and
permutation (each failure jumps to the error label, which calls
xnn_delete_operator and returns xnn_status_invalid_parameter).  The stride
checks of lines 151-183 only call xnn_log_error and never jump to the error
label (see inputStrideViolation / outputStrideViolation), so they do not
affect the result.  A zero shape dimension yields state skip and success with
no plan.  Otherwise the plan built by buildPlan is stored with state ready. -/
def setup_transpose_nd (P : XnnParams) (numDims : ℕ) (inputShape perm : List ℕ)
    (inputStride outputStride : Option (List ℕ)) (elementSize : ℕ) : SetupResult :=
  if numDims = 0 then
    ⟨.invalidParameter, .invalid, true, none⟩
  else if XNN_MAX_TENSOR_DIMS < numDims then
    ⟨.invalidParameter, .invalid, true, none⟩
  else if (List.range numDims).any (fun i => numDims ≤ nth perm i) then
    ⟨.invalidParameter, .invalid, true, none⟩
  else if (List.range numDims).any (fun i =>
      (List.range numDims).any (fun j => decide (i < j) && (nth perm i == nth perm j))) then
    ⟨.invalidParameter, .invalid, true, none⟩
  else if (List.range numDims).any (fun i => nth inputShape i == 0) then
    ⟨.success, .skip, false, none⟩
  else
    ⟨.success, .ready, false,
      some (buildPlan P numDims inputShape perm inputStride outputStride elementSize)⟩

/-- Static configuration stored by the derived depth-to-space /
space-to-depth creators (channels, input/output pixel strides, block size;
lines 605-608, 753-756, 1003-1006). -/
structure NhwcOp where
  blockSize : ℕ
  channels : ℕ
  inputPixelStride : ℕ
  outputPixelStride : ℕ

/-- A (rank, shape, perm, input strides, output strides) tuple handed to
setup_transpose_nd by a derived builder. -/
structure TransposeArgs where
  dims : ℕ
  shape : List ℕ
  perm : List ℕ
  inputStride : List ℕ
  outputStride : List ℕ

/-- The synthetic rank-5 transpose problem built by setup_depth_to_space_nhwc
(lines 860-879). -/
def depthToSpaceNhwcArgs (op : NhwcOp) (batchSize inputHeight inputWidth : ℕ) :
    TransposeArgs :=
  let bops := op.blockSize * op.outputPixelStride
  ⟨5,
    [batchSize * inputHeight, inputWidth, op.blockSize, op.blockSize, op.channels],
    [0, 2, 1, 3, 4],
    [inputWidth * op.inputPixelStride, op.inputPixelStride,
      op.blockSize * op.channels, op.channels, 1],
    [op.blockSize * inputWidth * bops, inputWidth * bops, bops,
      op.outputPixelStride, 1]⟩

/-- The synthetic rank-5 transpose problem built by setup_space_to_depth_nhwc
(lines 1110-1126). -/
def spaceToDepthNhwcArgs (op : NhwcOp) (batchSize inputHeight inputWidth : ℕ) :
    TransposeArgs :=
  ⟨5,
    [batchSize * (inputHeight / op.blockSize), op.blockSize,
      inputWidth / op.blockSize, op.blockSize, op.channels],
    [0, 2, 1, 3, 4],
    [op.blockSize * inputWidth * op.inputPixelStride,
      inputWidth * op.inputPixelStride,
      op.blockSize * op.inputPixelStride, op.inputPixelStride, 1],
    [(inputWidth / op.blockSize) * op.outputPixelStride, op.outputPixelStride,
      op.blockSize * op.channels, op.channels, 1]⟩

/-- The synthetic rank-6 transpose problem built by
xnn_setup_depth_to_space_nchw2nhwc_x32 (lines 656-677). -/
def depthToSpaceNchw2NhwcArgs (op : NhwcOp) (batchSize inputHeight inputWidth : ℕ) :
    TransposeArgs :=
  let area := inputHeight * inputWidth
  let epb := area * op.channels
  ⟨6,
    [batchSize, op.blockSize, op.blockSize, op.channels, inputHeight, inputWidth],
    [0, 4, 1, 5, 2, 3],
    [op.inputPixelStride * area, op.blockSize * epb, epb, area, inputWidth, 1],
    [inputHeight * op.blockSize * inputWidth * op.blockSize * op.outputPixelStride,
      op.blockSize * inputWidth * op.blockSize * op.outputPixelStride,
      inputWidth * op.blockSize * op.outputPixelStride,
      op.blockSize * op.outputPixelStride,
      op.outputPixelStride, 1]⟩

/-- setup_depth_to_space_nhwc (lines 825-891): after setting state invalid, a
zero input width or height is rejected as invalid_parameter, a zero batch
size yields state skip with success, and otherwise the rank-5 problem is
delegated to setup_transpose_nd.  (The operator-type and global
initialization guards, which concern other operators and process-global
state, are outside this embedding.) -/
def setup_depth_to_space_nhwc (P : XnnParams) (op : NhwcOp)
    (batchSize inputHeight inputWidth elementSize : ℕ) : SetupResult :=
  if inputWidth = 0 || inputHeight = 0 then
    ⟨.invalidParameter, .invalid, false, none⟩
  else if batchSize = 0 then
    ⟨.success, .skip, false, none⟩
  else
    let a := depthToSpaceNhwcArgs op batchSize inputHeight inputWidth
    setup_transpose_nd P a.dims a.shape a.perm (some a.inputStride)
      (some a.outputStride) elementSize

/-- setup_space_to_depth_nhwc (lines 1075-1138), same checks as the
depth-to-space variant before delegating its rank-5 problem. -/
def setup_space_to_depth_nhwc (P : XnnParams) (op : NhwcOp)
    (batchSize inputHeight inputWidth elementSize : ℕ) : SetupResult :=
  if inputWidth = 0 || inputHeight = 0 then
    ⟨.invalidParameter, .invalid, false, none⟩
  else if batchSize = 0 then
    ⟨.success, .skip, false, none⟩
  else
    let a := spaceToDepthNhwcArgs op batchSize inputHeight inputWidth
    setup_transpose_nd P a.dims a.shape a.perm (some a.inputStride)
      (some a.outputStride) elementSize

/-- xnn_setup_depth_to_space_nchw2nhwc_x32 (lines 623-689), same checks before
delegating its rank-6 problem with 4-byte elements. -/
def xnn_setup_depth_to_space_nchw2nhwc_x32 (P : XnnParams) (op : NhwcOp)
    (batchSize inputHeight inputWidth : ℕ) : SetupResult :=
  if inputWidth = 0 || inputHeight = 0 then
    ⟨.invalidParameter, .invalid, false, none⟩
  else if batchSize = 0 then
    ⟨.success, .skip, false, none⟩
  else
    let a := depthToSpaceNchw2NhwcArgs op batchSize inputHeight inputWidth
    setup_transpose_nd P a.dims a.shape a.perm (some a.inputStride)
      (some a.outputStride) 4

/-- Modelled from the spec: the compute primitives that execute a plan are
external collaborators (sections 1 and 6; their implementations are not in
this tree).  Their contract is output[o] = input[x] where output dimension i
sources input dimension perm[i] (section 3), the input offset of multi-index
x is the stride-weighted sum over input dimensions and the output offset of o
the stride-weighted sum over output dimensions.  For packed, non-overlapping
output strides the output multi-index of an offset k is recovered digit-wise
by division and remainder, giving the input offset it is sourced from. -/
def pullbackOffset (a : TransposeArgs) (k : ℕ) : ℕ :=
  ((List.range a.dims).map (fun i =>
      (k / nth a.outputStride i % nth a.shape (nth a.perm i)) *
        nth a.inputStride (nth a.perm i))).sum

/-- Modelled from the spec: executing a transpose problem on a buffer (the
buffer is a total map from element offsets to values): the element at output
offset k is the input element it is sourced from. -/
def runSem (a : TransposeArgs) (buf : ℕ → ℕ) : ℕ → ℕ :=
  fun k => buf (pullbackOffset a k)

/-- The space-to-depth problem for a 1×4×4×1 input with block size 2
(input channels 1, input pixel stride 1, output pixel stride 4 = the packed
output channel count). -/
def s2dExample : TransposeArgs := spaceToDepthNhwcArgs ⟨2, 1, 1, 4⟩ 1 4 4

/-- The depth-to-space problem applied to the result: 1×2×2×4 input with
block size 2 (output channels 1, input pixel stride 4, output pixel stride 1). -/
def d2sExample : TransposeArgs := depthToSpaceNhwcArgs ⟨2, 1, 4, 1⟩ 1 2 2

/-- The loop-order policy exactly as the claim words it: start from the
identity ordering over the normalized input dimensions, scan all but the last
two positions for the dimension whose value in the permutation equals the
last index, and swap that position of the identity ordering into the
second-to-last slot.  Stated from the spec wording (section 4.2) purely for
comparison with the source computation applyLoopSwap. -/
def specIdentityLoopOrder (ndims : ℕ) (permL : List ℕ) : List ℕ :=
  if 1 < ndims then
    match firstHit (fun i => nth permL i == ndims - 1) (ndims - 2) 0 with
    | some i => listSwap (List.range ndims) i (ndims - 2)
    | none => List.range ndims
  else List.range ndims

/-- Tile size of a kernel family in xnn_params. -/
def familyTileSize (P : XnnParams) : KernelFamily → ℕ
  | .x8 => P.x8Tile
  | .x16 => P.x16Tile
  | .x32 => P.x32Tile
  | .xx => P.xxTile

/-- Whether a parallelization strategy tiles two loop dimensions
(all strategies used for normalized ranks 2-6 do). -/
def tilesTwoInnermost : ParallelizationType → Bool
  | .t1dTile1d => false
  | _ => true

/-- The plan stored by setup_transpose_nd for a rank-1 caller problem of five
4-byte elements (used to instantiate the pointer-slot theorem). -/
def rank1ExamplePlan : TransposePlan :=
  ⟨1, 20, [0], [20], [1], [1], ⟨.xx, none, some 20, true, P0.xxTile, P0.xxTile⟩,
    .t1dTile1d, .univectorContiguous, .univectorContiguousCtx⟩

theorem nth_map_range (f : ℕ → ℕ) {n i : ℕ} (h : i < n) :
    nth ((List.range n).map f) i = f i := by
  simp [nth, List.getD_eq_getElem?_getD, List.getElem?_map, List.getElem?_range, h]

theorem swapFun_involutive (a b : ℕ) : Function.Involutive (swapFun a b) := by
  intro k
  unfold swapFun
  split_ifs <;> omega

theorem swapFun_lt {a b n : ℕ} (ha : a < n) (hb : b < n) {k : ℕ} (hk : k < n) :
    swapFun a b k < n := by
  unfold swapFun
  split_ifs <;> omega

theorem map_swapFun_range_perm {a b n : ℕ} (ha : a < n) (hb : b < n) :
    ((List.range n).map (swapFun a b)).Perm (List.range n) := by
  have hnodup : ((List.range n).map (swapFun a b)).Nodup :=
    (List.nodup_range n).map (swapFun_involutive a b).injective
  have hsub : ((List.range n).map (swapFun a b)) ⊆ List.range n := by
    intro x hx
    rcases List.mem_map.mp hx with ⟨k, hk, rfl⟩
    exact List.mem_range.mpr (swapFun_lt ha hb (List.mem_range.mp hk))
  exact (List.subperm_of_subset hnodup hsub).perm_of_length_le (by simp)

theorem nth_listSwap {l : List ℕ} {a b : ℕ} (ha : a < l.length) (hb : b < l.length)
    (hab : a ≠ b) (k : ℕ) : nth (listSwap l a b) k = nth l (swapFun a b k) := by
  unfold listSwap swapFun
  rcases eq_or_ne k a with rfl | hka
  · rw [if_pos rfl]
    simp [nth, List.getD_eq_getElem?_getD, List.getElem?_set_ne (Ne.symm hab),
      List.getElem?_set_self ha]
  · rcases eq_or_ne k b with rfl | hkb
    · rw [if_neg hka, if_pos rfl]
      unfold nth
      simp only [List.getD_eq_getElem?_getD]
      rw [List.getElem?_set_self (by simpa using hb)]
      rfl
    · rw [if_neg hka, if_neg hkb]
      simp [nth, List.getD_eq_getElem?_getD, List.getElem?_set_ne (Ne.symm hka),
        List.getElem?_set_ne (Ne.symm hkb)]

theorem firstHit_eq_none {p : ℕ → Bool} {m s : ℕ}
    (h : ∀ j, s ≤ j → j < s + m → p j = false) : firstHit p m s = none := by
  induction m generalizing s with
  | zero => rfl
  | succ m ih =>
    unfold firstHit
    rw [h s le_rfl (by omega)]
    simp only [Bool.false_eq_true, if_false]
    exact ih (fun j hj1 hj2 => h j (by omega) (by omega))

theorem firstHit_eq_some {p : ℕ → Bool} {m i : ℕ} {s : ℕ}
    (hsi : s ≤ i) (him : i < s + m) (hp : p i = true)
    (hmin : ∀ j, s ≤ j → j < i → p j = false) : firstHit p m s = some i := by
  induction m generalizing s with
  | zero => omega
  | succ m ih =>
    unfold firstHit
    rcases eq_or_ne s i with rfl | hne
    · rw [hp]
      simp
    · rw [hmin s le_rfl (by omega)]
      simp only [Bool.false_eq_true, if_false]
      exact ih (by omega) (by omega) (fun j hj1 hj2 => hmin j (by omega) hj2)

theorem firstHit_some_bounds {p : ℕ → Bool} {m i : ℕ} {s : ℕ}
    (h : firstHit p m s = some i) : s ≤ i ∧ i < s + m := by
  induction m generalizing s with
  | zero => simp [firstHit] at h
  | succ m ih =>
    unfold firstHit at h
    by_cases hp : p s
    · rw [if_pos hp] at h
      simp only [Option.some.injEq] at h
      omega
    · rw [if_neg hp] at h
      have := ih h
      omega

theorem perm_entries_lt {n : ℕ} {permL : List ℕ}
    (hperm : ((List.range n).map (nth permL)).Perm (List.range n)) :
    ∀ k, k < n → nth permL k < n := by
  intro k hk
  have hmem : nth permL k ∈ (List.range n).map (nth permL) :=
    List.mem_map.mpr ⟨k, List.mem_range.mpr hk, rfl⟩
  exact List.mem_range.mp (hperm.mem_iff.mp hmem)

theorem perm_valid_of_checks {n : ℕ} {permL : List ℕ}
    (hrange : ∀ i, i < n → nth permL i < n)
    (hdup : ∀ i j, i < j → j < n → nth permL i ≠ nth permL j) :
    ((List.range n).map (nth permL)).Perm (List.range n) := by
  have hnodup : ((List.range n).map (nth permL)).Nodup := by
    refine List.Nodup.map_on ?_ (List.nodup_range n)
    intro x hx y hy hxy
    by_contra hne
    rcases Nat.lt_or_ge x y with hlt | hge
    · exact hdup x y hlt (List.mem_range.mp hy) hxy
    · exact hdup y x (by omega) (List.mem_range.mp hx) hxy.symm
  have hsub : ((List.range n).map (nth permL)) ⊆ List.range n := by
    intro x hx
    rcases List.mem_map.mp hx with ⟨i, hi, rfl⟩
    exact List.mem_range.mpr (hrange i (List.mem_range.mp hi))
  exact (List.subperm_of_subset hnodup hsub).perm_of_length_le (by simp)

theorem map_range_perm_lt {n : ℕ} {f : ℕ → ℕ}
    (h : ((List.range n).map f).Perm (List.range n)) : ∀ k, k < n → f k < n := by
  intro k hk
  have hmem : f k ∈ (List.range n).map f :=
    List.mem_map.mpr ⟨k, List.mem_range.mpr hk, rfl⟩
  exact List.mem_range.mp (h.mem_iff.mp hmem)

theorem map_perm_of_pointwise {α : Type} {n : ℕ} {σ : ℕ → ℕ}
    (hσ : ((List.range n).map σ).Perm (List.range n))
    (T T' : ℕ → α)
    (hpt : ∀ k, k < n → T' k = T (σ k)) :
    ((List.range n).map T').Perm ((List.range n).map T) := by
  have h1 : (List.range n).map T' = (List.range n).map (T ∘ σ) :=
    List.map_congr_left (fun k hk => by
      rw [Function.comp_apply, hpt k (List.mem_range.mp hk)])
  rw [h1, ← List.map_map]
  exact hσ.map T

theorem reorder_core_perm (n : ℕ) (permL shape istr ostr lo ostr2 : List ℕ)
    (σ : ℕ → ℕ)
    (hperm : ((List.range n).map (nth permL)).Perm (List.range n))
    (hσ : ((List.range n).map σ).Perm (List.range n))
    (hlo : ∀ k, k < n → nth lo k = nth permL (σ k))
    (hos : ∀ k, k < n → nth ostr2 k = nth ostr (σ k)) :
    ((List.range n).map (fun k =>
        (nth (reorder_array n lo ((List.range n).map (nth shape))) k,
         nth (reorder_array n lo istr) k,
         nth ostr2 k))).Perm
      ((List.range n).map (fun i =>
        (nth shape (nth permL i), nth istr (nth permL i), nth ostr i))) ∧
    (reorder_array n lo ((List.range n).map (nth shape))).prod =
      ((List.range n).map (nth shape)).prod := by
  have hσlt : ∀ k, k < n → σ k < n := map_range_perm_lt hσ
  have hplt : ∀ k, k < n → nth permL k < n := map_range_perm_lt hperm
  have hrng : ∀ k, k < n →
      nth (reorder_array n lo ((List.range n).map (nth shape))) k =
        nth shape (nth permL (σ k)) := by
    intro k hk
    unfold reorder_array
    rw [nth_map_range _ hk, hlo k hk, nth_map_range _ (hplt _ (hσlt k hk))]
  have histr2 : ∀ k, k < n →
      nth (reorder_array n lo istr) k = nth istr (nth permL (σ k)) := by
    intro k hk
    unfold reorder_array
    rw [nth_map_range _ hk, hlo k hk]
  constructor
  · refine map_perm_of_pointwise hσ _ _ (fun k hk => ?_)
    show (_, _, _) = (_, _, _)
    rw [hrng k hk, histr2 k hk, hos k hk]
  · have hrw : reorder_array n lo ((List.range n).map (nth shape)) =
        (List.range n).map (fun k => nth shape (nth permL (σ k))) := by
      unfold reorder_array
      refine List.map_congr_left (fun k hk => ?_)
      have hk' := List.mem_range.mp hk
      rw [hlo k hk', nth_map_range _ (hplt _ (hσlt k hk'))]
    have pA : ((List.range n).map (fun k => nth shape (nth permL (σ k)))).Perm
        ((List.range n).map (fun i => nth shape (nth permL i))) :=
      map_perm_of_pointwise hσ _ _ (fun k _ => rfl)
    have pB : ((List.range n).map (fun i => nth shape (nth permL i))).Perm
        ((List.range n).map (nth shape)) :=
      map_perm_of_pointwise hperm _ _ (fun k _ => rfl)
    rw [hrw]
    exact (pA.trans pB).prod_eq

theorem anyRange_eq_false {n : ℕ} {p : ℕ → Prop} [DecidablePred p]
    (h : ∀ i, i < n → ¬ p i) :
    ((List.range n).any fun i => decide (p i)) = false := by
  cases hany : (List.range n).any fun i => decide (p i) with
  | false => rfl
  | true =>
    exfalso
    rcases List.any_eq_true.mp hany with ⟨i, hi, hd⟩
    exact h i (List.mem_range.mp hi) (of_decide_eq_true hd)

theorem anyRange_eq_true {n : ℕ} {p : ℕ → Prop} [DecidablePred p]
    (h : ∃ i, i < n ∧ p i) :
    ((List.range n).any fun i => decide (p i)) = true := by
  rcases h with ⟨i, hi, hp⟩
  exact List.any_eq_true.mpr ⟨i, List.mem_range.mpr hi, decide_eq_true hp⟩

theorem dupCheck_eq_false {n : ℕ} {permL : List ℕ}
    (h : ∀ i j, i < j → j < n → nth permL i ≠ nth permL j) :
    ((List.range n).any fun i => (List.range n).any fun j =>
      decide (i < j) && (nth permL i == nth permL j)) = false := by
  cases hany : (List.range n).any fun i => (List.range n).any fun j =>
      decide (i < j) && (nth permL i == nth permL j) with
  | false => rfl
  | true =>
    exfalso
    rcases List.any_eq_true.mp hany with ⟨i, _, hinner⟩
    rcases List.any_eq_true.mp hinner with ⟨j, hj, hb⟩
    rcases Bool.and_eq_true_iff.mp hb with ⟨hij, heq⟩
    exact h i j (of_decide_eq_true hij) (List.mem_range.mp hj) (by simpa using heq)

theorem dupCheck_eq_true {n : ℕ} {permL : List ℕ}
    (h : ∃ i j, i < j ∧ j < n ∧ nth permL i = nth permL j) :
    ((List.range n).any fun i => (List.range n).any fun j =>
      decide (i < j) && (nth permL i == nth permL j)) = true := by
  rcases h with ⟨i, j, hij, hj, heq⟩
  refine List.any_eq_true.mpr ⟨i, List.mem_range.mpr (by omega), ?_⟩
  refine List.any_eq_true.mpr ⟨j, List.mem_range.mpr hj, ?_⟩
  simp [hij, heq]

theorem zeroCheck_eq_true {n : ℕ} {shape : List ℕ}
    (h : ∃ i, i < n ∧ nth shape i = 0) :
    ((List.range n).any fun i => nth shape i == 0) = true := by
  rcases h with ⟨i, hi, hz⟩
  exact List.any_eq_true.mpr ⟨i, List.mem_range.mpr hi, by simpa using hz⟩

theorem buildPlan_pointerSlot (P : XnnParams) (numDims : ℕ)
    (inputShape perm : List ℕ) (istr ostr : Option (List ℕ)) (es : ℕ) :
    (buildPlan P numDims inputShape perm istr ostr es).pointerSlot =
      if numDims = 1 then .univectorContiguousCtx else .transposeCtx := rfl

/-- C5: the loop-order adjustment and the reorder_array gathers only permute
loop positions, never values: stating a dimension's triple as (extent
shape[perm[i]], input stride input_stride[perm[i]], output stride
output_stride[i]) for output dimension i — the pairing fixed by the data
model, where output dimension i sources input dimension perm[i] — the list
of per-loop-position triples after the swap and gathers is a permutation
(equal multiset) of the per-dimension triples before them, and the product
of the range entries (the total element count) is unchanged. -/
theorem C5_reorder_only_permutes (n : ℕ)
    (permL shape istr ostr lo ostr2 : List ℕ)
    (hperm : ((List.range n).map (nth permL)).Perm (List.range n))
    (hlen : ostr.length = n)
    (hswap : applyLoopSwap n ((List.range n).map (nth permL)) ostr = (lo, ostr2)) :
    ((List.range n).map (fun k =>
        (nth (reorder_array n lo ((List.range n).map (nth shape))) k,
         nth (reorder_array n lo istr) k,
         nth ostr2 k))).Perm
      ((List.range n).map (fun i =>
        (nth shape (nth permL i), nth istr (nth permL i), nth ostr i))) ∧
    (reorder_array n lo ((List.range n).map (nth shape))).prod =
      ((List.range n).map (nth shape)).prod := by
  unfold applyLoopSwap at hswap
  by_cases hn : 1 < n
  · rw [if_pos hn] at hswap
    rcases hhit : firstHit (fun i =>
        nth ((List.range n).map (nth permL)) i == n - 1) (n - 2) 0 with _ | i0
    · rw [hhit] at hswap
      injection hswap with hl ho
      subst hl
      subst ho
      refine reorder_core_perm n permL shape istr ostr _ _ id hperm (by simp) ?_
        (fun k hk => rfl)
      intro k hk
      simpa using nth_map_range (nth permL) hk
    · rw [hhit] at hswap
      injection hswap with hl ho
      subst hl
      subst ho
      have hb := firstHit_some_bounds hhit
      have hi0n : i0 < n := by omega
      have hn2 : n - 2 < n := by omega
      have hne : i0 ≠ n - 2 := by omega
      refine reorder_core_perm n permL shape istr ostr _ _ (swapFun i0 (n - 2)) hperm
        (map_swapFun_range_perm hi0n hn2) ?_ ?_
      · intro k hk
        rw [nth_listSwap (by simpa using hi0n) (by simpa using hn2) hne k]
        exact nth_map_range _ (swapFun_lt hi0n hn2 hk)
      · intro k hk
        exact nth_listSwap (by rw [hlen]; exact hi0n) (by rw [hlen]; exact hn2) hne k
  · rw [if_neg hn] at hswap
    injection hswap with hl ho
    subst hl
    subst ho
    refine reorder_core_perm n permL shape istr ostr _ _ id hperm (by simp) ?_
      (fun k hk => rfl)
    intro k hk
    simpa using nth_map_range (nth permL) hk

/-- Witness for C5 at the concrete normalized problem with permutation
[2,0,1], shape [2,3,4], input strides [12,4,1] and output strides [6,2,1]
(the swap fires at position 0 and yields loop order [0,2,1] and swapped
output strides [2,6,1]). -/
theorem C5_reorder_only_permutes_witness :
    ((List.range 3).map (fun k =>
        (nth (reorder_array 3 [0, 2, 1] ((List.range 3).map (nth [2, 3, 4]))) k,
         nth (reorder_array 3 [0, 2, 1] [12, 4, 1]) k,
         nth [2, 6, 1] k))).Perm
      ((List.range 3).map (fun i =>
        (nth [2, 3, 4] (nth [2, 0, 1] i), nth [12, 4, 1] (nth [2, 0, 1] i),
         nth [6, 2, 1] i))) ∧
    (reorder_array 3 [0, 2, 1] ((List.range 3).map (nth [2, 3, 4]))).prod =
      ((List.range 3).map (nth [2, 3, 4])).prod :=
  C5_reorder_only_permutes 3 [2, 0, 1] [2, 3, 4] [12, 4, 1] [6, 2, 1] [0, 2, 1]
    [2, 6, 1] (by decide) rfl rfl

/-- C4 (amended): for a normalized problem of rank greater than 1, the loop
order starts from the normalized permutation (the source memcpy's
normalized_perm into loop_order), not from the identity ordering; the scan
covers all but the last two positions looking for the position whose entry
equals the last index, and the first hit is swapped into the second-to-last
slot together with its output-stride entry; if that entry already sits in one
of the last two slots no swap occurs, and for normalized rank at most 1 the
whole step is skipped. -/
theorem C4_loop_order_from_perm (n : ℕ) (lo ostr : List ℕ) :
    (n ≤ 1 → applyLoopSwap n lo ostr = (lo, ostr)) ∧
    ((∀ i, i < n - 2 → nth lo i ≠ n - 1) → applyLoopSwap n lo ostr = (lo, ostr)) ∧
    (∀ i0, i0 < n - 2 → nth lo i0 = n - 1 →
      (∀ j, j < i0 → nth lo j ≠ n - 1) →
      applyLoopSwap n lo ostr = (listSwap lo i0 (n - 2), listSwap ostr i0 (n - 2))) := by
  refine ⟨?_, ?_, ?_⟩
  · intro h
    unfold applyLoopSwap
    rw [if_neg (by omega)]
  · intro h
    unfold applyLoopSwap
    by_cases hn : 1 < n
    · rw [if_pos hn, firstHit_eq_none (fun j hj1 hj2 => by
        simpa using h j (by omega))]
    · rw [if_neg hn]
  · intro i0 hi0 hval hmin
    unfold applyLoopSwap
    rw [if_pos (by omega), firstHit_eq_some (Nat.zero_le i0) (by omega)
      (by simpa using hval) (fun j hj1 hj2 => by simpa using hmin j hj2)]

/-- Witness for C4 at the concrete normalized permutation [3,0,1,2] with
output strides [8,4,2,1]: the entry 3 at position 0 is swapped with position
2 in both arrays. -/
theorem C4_loop_order_from_perm_witness :
    applyLoopSwap 4 [3, 0, 1, 2] [8, 4, 2, 1] =
      (listSwap [3, 0, 1, 2] 0 2, listSwap [8, 4, 2, 1] 0 2) :=
  (C4_loop_order_from_perm 4 [3, 0, 1, 2] [8, 4, 2, 1]).2.2 0 (by decide) (by decide)
    (fun j hj => absurd hj (Nat.not_lt_zero j))

/-- C4 counterexample: for the normalized permutation [2,0,1] of rank 3, the
source computation (which starts the loop order from the permutation) yields
[0,2,1], while the procedure the claim describes (start from the identity
ordering and swap) yields [1,0,2]; so the claim as stated does not hold. -/
theorem C4_loop_order_counterexample :
    (applyLoopSwap 3 ((List.range 3).map (nth [2, 0, 1])) [4, 2, 1]).1 ≠
      specIdentityLoopOrder 3 [2, 0, 1] := by decide

/-- C6: for ranks 1..6, a successful setup implies the supplied permutation
is a permutation of 0..rank-1 (stated as: its value list is a List.Perm of
List.range rank), and any out-of-range or duplicated entry makes setup
return invalid_parameter with the operator state field set to invalid. -/
theorem C6_perm_bijectivity (P : XnnParams) (n : ℕ) (shape permL : List ℕ)
    (istr ostr : Option (List ℕ)) (es : ℕ) (h1 : 1 ≤ n) (h2 : n ≤ 6) :
    ((setup_transpose_nd P n shape permL istr ostr es).status = .success →
      ((List.range n).map (nth permL)).Perm (List.range n)) ∧
    (((∃ i, i < n ∧ n ≤ nth permL i) ∨
        (∃ i j, i < j ∧ j < n ∧ nth permL i = nth permL j)) →
      (setup_transpose_nd P n shape permL istr ostr es).status = .invalidParameter ∧
      (setup_transpose_nd P n shape permL istr ostr es).state = .invalid) := by
  by_cases hg2 : ∃ i, i < n ∧ n ≤ nth permL i
  · have hres : setup_transpose_nd P n shape permL istr ostr es =
        ⟨.invalidParameter, .invalid, true, none⟩ := by
      unfold setup_transpose_nd
      rw [if_neg (by omega : ¬ n = 0),
        if_neg (show ¬ XNN_MAX_TENSOR_DIMS < n by unfold XNN_MAX_TENSOR_DIMS; omega),
        if_pos (anyRange_eq_true hg2)]
    rw [hres]
    exact ⟨fun hs => XnnStatus.noConfusion hs, fun _ => ⟨rfl, rfl⟩⟩
  · by_cases hg3 : ∃ i j, i < j ∧ j < n ∧ nth permL i = nth permL j
    · have hres : setup_transpose_nd P n shape permL istr ostr es =
          ⟨.invalidParameter, .invalid, true, none⟩ := by
        unfold setup_transpose_nd
        rw [if_neg (by omega : ¬ n = 0),
          if_neg (show ¬ XNN_MAX_TENSOR_DIMS < n by unfold XNN_MAX_TENSOR_DIMS; omega),
          if_neg (by rw [anyRange_eq_false (fun i hi hc => hg2 ⟨i, hi, hc⟩)]; decide),
          if_pos (dupCheck_eq_true hg3)]
      rw [hres]
      exact ⟨fun hs => XnnStatus.noConfusion hs, fun _ => ⟨rfl, rfl⟩⟩
    · have hrange : ∀ i, i < n → nth permL i < n := by
        intro i hi
        by_contra hc
        exact hg2 ⟨i, hi, by omega⟩
      have hdup : ∀ i j, i < j → j < n → nth permL i ≠ nth permL j := by
        intro i j hij hj hc
        exact hg3 ⟨i, j, hij, hj, hc⟩
      exact ⟨fun _ => perm_valid_of_checks hrange hdup,
        fun hviol => absurd hviol (not_or.mpr ⟨hg2, hg3⟩)⟩

/-- Witness for C6 at the duplicated permutation [0,0] of rank 2. -/
theorem C6_perm_bijectivity_witness :
    (setup_transpose_nd P0 2 [2, 2] [0, 0] none none 4).status = .invalidParameter ∧
    (setup_transpose_nd P0 2 [2, 2] [0, 0] none none 4).state = .invalid :=
  (C6_perm_bijectivity P0 2 [2, 2] [0, 0] none none 4 (by decide) (by decide)).2
    (Or.inr ⟨0, 1, by decide, by decide, by decide⟩)

/-- C7: with valid rank and permutation, any zero shape entry makes setup
return success with state skip, no plan being computed (no normalization,
loop ordering or kernel selection). -/
theorem C7_degenerate_shape_skips (P : XnnParams) (n : ℕ) (shape permL : List ℕ)
    (istr ostr : Option (List ℕ)) (es : ℕ) (h1 : 1 ≤ n) (h2 : n ≤ 6)
    (hrange : ∀ i, i < n → nth permL i < n)
    (hdup : ∀ i, i < n → ∀ j, j < n → i < j → nth permL i ≠ nth permL j)
    (hz : ∃ i, i < n ∧ nth shape i = 0) :
    setup_transpose_nd P n shape permL istr ostr es =
      ⟨.success, .skip, false, none⟩ := by
  unfold setup_transpose_nd
  rw [if_neg (by omega : ¬ n = 0),
    if_neg (show ¬ XNN_MAX_TENSOR_DIMS < n by unfold XNN_MAX_TENSOR_DIMS; omega),
    if_neg (by rw [anyRange_eq_false (fun i hi hc => absurd (hrange i hi) (by omega))]; decide),
    if_neg (by rw [dupCheck_eq_false (fun i j hij hj => hdup i (by omega) j hj hij)]; decide),
    if_pos (zeroCheck_eq_true hz)]

/-- Witness for C7 at rank 2, shape [0,3], identity permutation. -/
theorem C7_degenerate_shape_skips_witness :
    setup_transpose_nd P0 2 [0, 3] [0, 1] none none 4 =
      ⟨.success, .skip, false, none⟩ :=
  C7_degenerate_shape_skips P0 2 [0, 3] [0, 1] none none 4 (by decide) (by decide)
    (by decide) (by decide) ⟨0, by decide, by decide⟩

/-- C1 (code evaluation at the failing input): the input-stride check
condition flags the violation (last input stride 2 instead of 1, monotonicity
broken as well), yet setup still returns success and reaches the ready state,
because the stride checks of lines 151-183 only log the error and never jump
to the error label. -/
theorem C1_stride_violation_not_rejected :
    inputStrideViolation 2 [2, 3] [3, 2] = true ∧
    (setup_transpose_nd P0 2 [2, 3] [1, 0] (some [3, 2]) none 4).status = .success ∧
    (setup_transpose_nd P0 2 [2, 3] [1, 0] (some [3, 2]) none 4).state = .ready :=
  ⟨rfl, rfl, rfl⟩

/-- C2 (code evaluation at failing inputs): validation failures in
setup_transpose_nd reach the error label, which calls xnn_delete_operator on
the operator — the operator is deallocated, not left intact with only its
state marked invalid. -/
theorem C2_validation_failure_deallocates :
    (setup_transpose_nd P0 0 [] [] none none 4).status = .invalidParameter ∧
    (setup_transpose_nd P0 0 [] [] none none 4).deallocated = true ∧
    (setup_transpose_nd P0 2 [2, 2] [1, 1] none none 4).status = .invalidParameter ∧
    (setup_transpose_nd P0 2 [2, 2] [1, 1] none none 4).deallocated = true :=
  ⟨rfl, rfl, rfl, rfl⟩

/-- C3 counterexample: a zero input height at the derived depth-to-space NHWC
setup interface is rejected with invalid_parameter, contradicting the claim
that zero-sized dimensions at the derived interfaces are never rejected. -/
theorem C3_zero_dim_counterexample :
    (setup_depth_to_space_nhwc P0 ⟨2, 1, 4, 1⟩ 1 0 1 4).status = .invalidParameter :=
  rfl

/-- C3 (amended): at the derived depth-to-space / space-to-depth interfaces a
zero batch size is a valid no-op (state skip, success, no plan), but a zero
input height or width there is rejected with invalid_parameter; only the core
transpose setup treats every zero shape dimension as a no-op. -/
theorem C3_zero_dims (P : XnnParams) (op : NhwcOp) (b h w es : ℕ) :
    (w = 0 ∨ h = 0 →
      (setup_depth_to_space_nhwc P op b h w es).status = .invalidParameter ∧
      (setup_space_to_depth_nhwc P op b h w es).status = .invalidParameter ∧
      (xnn_setup_depth_to_space_nchw2nhwc_x32 P op b h w).status = .invalidParameter) ∧
    (w ≠ 0 → h ≠ 0 → b = 0 →
      setup_depth_to_space_nhwc P op b h w es = ⟨.success, .skip, false, none⟩ ∧
      setup_space_to_depth_nhwc P op b h w es = ⟨.success, .skip, false, none⟩ ∧
      xnn_setup_depth_to_space_nchw2nhwc_x32 P op b h w =
        ⟨.success, .skip, false, none⟩) := by
  constructor
  · intro hwh
    have hcond : (decide (w = 0) || decide (h = 0)) = true := by
      rcases hwh with h0 | h0 <;> simp [h0]
    unfold setup_depth_to_space_nhwc setup_space_to_depth_nhwc
      xnn_setup_depth_to_space_nchw2nhwc_x32
    simp [hcond]
  · intro hw hh hb
    have hcond : (decide (w = 0) || decide (h = 0)) = false := by simp [hw, hh]
    unfold setup_depth_to_space_nhwc setup_space_to_depth_nhwc
      xnn_setup_depth_to_space_nchw2nhwc_x32
    simp [hcond, hb]

/-- Witness for C3 at block size 2, one channel, zero input width. -/
theorem C3_zero_dims_witness :
    (setup_depth_to_space_nhwc P0 ⟨2, 1, 4, 1⟩ 1 1 0 4).status = .invalidParameter ∧
    (setup_space_to_depth_nhwc P0 ⟨2, 1, 4, 1⟩ 1 1 0 4).status = .invalidParameter ∧
    (xnn_setup_depth_to_space_nchw2nhwc_x32 P0 ⟨2, 1, 4, 1⟩ 1 1 0).status =
      .invalidParameter :=
  (C3_zero_dims P0 ⟨2, 1, 4, 1⟩ 1 1 0 4).1 (Or.inl rfl)

/-- C8: kernel dispatch is a function of (normalized element size, normalized
rank): sizes 1, 2 and 4 select the matching fixed-width family with the
family's precomputed tile size on both tiled dimensions and no runtime
element size; any other size selects the variable-width family carrying the
element size at runtime; normalized rank 1 installs the linear-copy task with
the one-dimensional strategy, and ranks 2..6 install a transpose task with
the strategy whose dimensionality equals the rank, tiling two loop
dimensions. -/
theorem C8_kernel_dispatch (P : XnnParams) (es nd : ℕ) (vb : Bool)
    (h1 : 1 ≤ nd) (h2 : nd ≤ 6) :
    ((es = 1 → (elementDispatch P es).family = .x8) ∧
     (es = 2 → (elementDispatch P es).family = .x16) ∧
     (es = 4 → (elementDispatch P es).family = .x32) ∧
     (es = 1 ∨ es = 2 ∨ es = 4 →
       (elementDispatch P es).variableSizeUkernel = false ∧
       (elementDispatch P es).runtimeElementSize = none) ∧
     (¬(es = 1 ∨ es = 2 ∨ es = 4) →
       (elementDispatch P es).family = .xx ∧
       (elementDispatch P es).variableSizeUkernel = true ∧
       (elementDispatch P es).runtimeElementSize = some es) ∧
     (elementDispatch P es).tile0 = familyTileSize P (elementDispatch P es).family ∧
     (elementDispatch P es).tile1 = familyTileSize P (elementDispatch P es).family) ∧
    ((nd = 1 → rankDispatch vb nd = (.t1dTile1d, .univectorContiguous)) ∧
     (2 ≤ nd →
       ptypeDims (rankDispatch vb nd).1 = nd ∧
       tilesTwoInnermost (rankDispatch vb nd).1 = true ∧
       (rankDispatch vb nd).2 =
         (if vb then .transposev nd else .transposec nd))) := by
  constructor
  · rcases es with _ | _ | _ | _ | _ | es
    · exact ⟨fun h => False.elim (by omega), fun h => False.elim (by omega),
        fun h => False.elim (by omega),
        fun h => False.elim (by rcases h with h | h | h <;> omega),
        fun _ => ⟨rfl, rfl, rfl⟩, rfl, rfl⟩
    · exact ⟨fun _ => rfl, fun h => False.elim (by omega), fun h => False.elim (by omega),
        fun _ => ⟨rfl, rfl⟩, fun h => absurd (Or.inl rfl) h, rfl, rfl⟩
    · exact ⟨fun h => False.elim (by omega), fun _ => rfl, fun h => False.elim (by omega),
        fun _ => ⟨rfl, rfl⟩, fun h => absurd (Or.inr (Or.inl rfl)) h, rfl, rfl⟩
    · exact ⟨fun h => False.elim (by omega), fun h => False.elim (by omega),
        fun h => False.elim (by omega),
        fun h => False.elim (by rcases h with h | h | h <;> omega),
        fun _ => ⟨rfl, rfl, rfl⟩, rfl, rfl⟩
    · exact ⟨fun h => False.elim (by omega), fun h => False.elim (by omega), fun _ => rfl,
        fun _ => ⟨rfl, rfl⟩, fun h => absurd (Or.inr (Or.inr rfl)) h, rfl, rfl⟩
    · exact ⟨fun h => False.elim (by omega), fun h => False.elim (by omega),
        fun h => False.elim (by omega),
        fun h => False.elim (by rcases h with h | h | h <;> omega),
        fun _ => ⟨rfl, rfl, rfl⟩, rfl, rfl⟩
  · constructor
    · intro hnd
      subst hnd
      rfl
    · intro hnd
      rcases nd with _ | _ | _ | _ | _ | _ | _ | nd
      · omega
      · omega
      · exact ⟨rfl, rfl, rfl⟩
      · exact ⟨rfl, rfl, rfl⟩
      · exact ⟨rfl, rfl, rfl⟩
      · exact ⟨rfl, rfl, rfl⟩
      · exact ⟨rfl, rfl, rfl⟩
      · omega

/-- Witness for C8 at element size 3 (variable width) and normalized rank 4. -/
theorem C8_kernel_dispatch_witness :
    ptypeDims (rankDispatch true 4).1 = 4 ∧
    tilesTwoInnermost (rankDispatch true 4).1 = true ∧
    (rankDispatch true 4).2 = (if true then TaskKind.transposev 4
      else TaskKind.transposec 4) :=
  (C8_kernel_dispatch P0 3 4 true (by decide) (by decide)).2.2 (by decide)

/-- C9: the NHWC depth-to-space and space-to-depth builders construct rank-5
transpose problems with the same permutation [0,2,1,3,4], which is its own
inverse (so the two permutations are mutually inverse); executing
space-to-depth with block size 2 on a 1×4×4×1 packed buffer and then
depth-to-space with block size 2 and matching channel/pixel strides on the
result reproduces the original buffer exactly on all 16 element offsets. -/
theorem C9_roundtrip (buf : ℕ → ℕ) (k : ℕ) (hk : k < 16) :
    s2dExample.perm = [0, 2, 1, 3, 4] ∧
    d2sExample.perm = [0, 2, 1, 3, 4] ∧
    (∀ i, i < 5 → nth [0, 2, 1, 3, 4] (nth [0, 2, 1, 3, 4] i) = i) ∧
    runSem d2sExample (runSem s2dExample buf) k = buf k := by
  refine ⟨rfl, rfl, by decide, ?_⟩
  have hcomp : ∀ m, m < 16 →
      pullbackOffset s2dExample (pullbackOffset d2sExample m) = m := by decide
  show buf (pullbackOffset s2dExample (pullbackOffset d2sExample k)) = buf k
  rw [hcomp k hk]

/-- Witness for C9 at offset 5 of the buffer m ↦ m + 100. -/
theorem C9_roundtrip_witness :
    (5 : ℕ) < 16 ∧
    (s2dExample.perm = [0, 2, 1, 3, 4] ∧
     d2sExample.perm = [0, 2, 1, 3, 4] ∧
     (∀ i, i < 5 → nth [0, 2, 1, 3, 4] (nth [0, 2, 1, 3, 4] i) = i) ∧
     runSem d2sExample (runSem s2dExample (fun m => m + 100)) 5 =
       (fun m => m + 100) 5) :=
  ⟨by decide, C9_roundtrip (fun m => m + 100) 5 (by decide)⟩

/-- C10: whenever setup stores a plan, the input/output pointers went into
the univector-contiguous context iff the caller-supplied rank (num_dims,
stored in the channels field) is 1 — not iff the normalized rank is 1; in
particular the rank-2 identity problem over a packed buffer normalizes to
rank 1 and selects the linear-copy task, yet its pointers are stored in the
transpose context. -/
theorem C10_pointer_slot (P : XnnParams) (n : ℕ) (shape permL : List ℕ)
    (istr ostr : Option (List ℕ)) (es : ℕ) (plan : TransposePlan)
    (hp : (setup_transpose_nd P n shape permL istr ostr es).plan = some plan) :
    (plan.pointerSlot = .univectorContiguousCtx ↔ n = 1) ∧
    (setup_transpose_nd P0 2 [2, 3] [0, 1] none none 4).plan.map
        (fun pl => (pl.task, pl.pointerSlot)) =
      some (.univectorContiguous, .transposeCtx) := by
  refine ⟨?_, rfl⟩
  unfold setup_transpose_nd at hp
  by_cases hg0 : n = 0
  · rw [if_pos hg0] at hp
    simp at hp
  rw [if_neg hg0] at hp
  by_cases hg1 : XNN_MAX_TENSOR_DIMS < n
  · rw [if_pos hg1] at hp
    simp at hp
  rw [if_neg hg1] at hp
  by_cases hg2 : ((List.range n).any fun i => decide (n ≤ nth permL i)) = true
  · rw [if_pos hg2] at hp
    simp at hp
  rw [if_neg hg2] at hp
  by_cases hg3 : ((List.range n).any fun i => (List.range n).any fun j =>
      decide (i < j) && (nth permL i == nth permL j)) = true
  · rw [if_pos hg3] at hp
    simp at hp
  rw [if_neg hg3] at hp
  by_cases hg4 : ((List.range n).any fun i => nth shape i == 0) = true
  · rw [if_pos hg4] at hp
    simp at hp
  rw [if_neg hg4] at hp
  simp only [Option.some.injEq] at hp
  rw [← hp, buildPlan_pointerSlot]
  by_cases hn : n = 1
  · simp [hn]
  · simp [hn]

/-- Witness for C10 at the rank-1 problem of five 4-byte elements, whose plan
is rank1ExamplePlan. -/
theorem C10_pointer_slot_witness :
    (rank1ExamplePlan.pointerSlot = PointerSlot.univectorContiguousCtx ↔
      (1 : ℕ) = 1) ∧
    (setup_transpose_nd P0 2 [2, 3] [0, 1] none none 4).plan.map
        (fun pl => (pl.task, pl.pointerSlot)) =
      some (.univectorContiguous, .transposeCtx) :=
  C10_pointer_slot P0 1 [5] [0] none none 4 rank1ExamplePlan rfl

end XnnTranspose
